import Mathlib

/-!
Verification of the streaming control-socket client scripts of the
marketing-automation-desktop repository.

Text is modelled as `List Char` (the result of decoding the accumulated
byte buffer; all inputs of interest are char-aligned, where Python's
lossy `decode('utf-8', 'replace')` is the identity on the decoded
characters).  Each Python read loop is embedded as a function over an
explicit list of receive events (`RecvEv`): a data chunk, a
`socket.timeout`, or another exception; exhaustion of the event list
models the outer wall-clock deadline of the `while` loop.
-/

namespace ControlClient

/-- Decoded text: a list of characters. -/
abbrev Str := List Char

/-- Python whitespace characters, as stripped by `str.strip` / `str.rstrip`
and matched by the regex class `\s` (ASCII range). -/
def isPyWs (c : Char) : Bool :=
  c == ' ' || c == '\t' || c == '\n' || c == '\r' || c == '\x0b' || c == '\x0c'

/-- Test whether `pat` is an initial segment of `s` (character-wise). -/
def strPre : Str → Str → Bool
  | [], _ => true
  | _ :: _, [] => false
  | c :: p, d :: s => c == d && strPre p s

/-- Python's substring test `pat in s`. -/
def hasSub (pat : Str) : Str → Bool
  | [] => strPre pat []
  | c :: rest => strPre pat (c :: rest) || hasSub pat rest

/-- Test whether the first character of `s` is `c`. -/
def headIs (c : Char) (s : Str) : Bool :=
  match s with
  | [] => false
  | d :: _ => d == c

/-- Python `s.rstrip()`: remove trailing whitespace. -/
def pyRstrip (s : Str) : Str :=
  (s.reverse.dropWhile isPyWs).reverse

/-- Python `s.strip()`: remove leading and trailing whitespace. -/
def pyStrip (s : Str) : Str :=
  ((s.dropWhile isPyWs).reverse.dropWhile isPyWs).reverse

/-- Python `s.endswith(c)` for a single character `c`: the last character
of `s` is `c`. -/
def endsWithCh (c : Char) (s : Str) : Bool :=
  headIs c s.reverse

/-- Python `s.split(sep)` for a single-character separator: split on every
occurrence, keeping empty segments (`''.split(sep) = ['']`). -/
def pySplit (sep : Char) : Str → List Str
  | [] => [[]]
  | c :: rest =>
    let r := pySplit sep rest
    if c == sep then [] :: r
    else
      match r with
      | [] => [[c]]
      | l :: ls => (c :: l) :: ls

/-- The line split used by the read loops: `decoded.strip().split('\n')`. -/
def splitLines (s : Str) : List Str :=
  pySplit '\n' (pyStrip s)

/-- The substring `"status":"success"` (with the double quotes). -/
def succPat : Str := "\"status\":\"success\"".data

/-- The substring `"status":"complete"` (with the double quotes). -/
def compPat : Str := "\"status\":\"complete\"".data

/-- The substring `"status":"failed"` (with the double quotes). -/
def failPat : Str := "\"status\":\"failed\"".data

/-- Completion detector of `send_command` in `gen_and_run.py` (and of
`send_command` in `test_full_flow.py`): the decoded buffer contains one of
the three exact status substrings, and after `rstrip` it ends with a
closing brace. -/
def isCompleteGA (s : Str) : Bool :=
  (hasSub succPat s || hasSub compPat s || hasSub failPat s)
    && endsWithCh '}' (pyRstrip s)

/-- Completion detector of the read loop of `generate_script.py`: it breaks
as soon as the buffer contains `"status":"success"` or `"status":"failed"`,
with no trailing-brace requirement and no `complete` variant. -/
def isCompleteGS (s : Str) : Bool :=
  hasSub succPat s || hasSub failPat s

/-- Completion detector of the read loop of `run_script.py`: the buffer
contains `"status":"complete"` or `"status":"success"`, and after `rstrip`
it ends with a closing brace. -/
def isCompleteRS (s : Str) : Bool :=
  (hasSub compPat s || hasSub succPat s)
    && endsWithCh '}' (pyRstrip s)

example : isCompleteGA "\x7b\"status\":\"success\"\x7d".data = true := by decide
example : isCompleteGA "\x7b\"status\": \"success\"\x7d".data = false := by decide
example : isCompleteGS "\x7b\"status\":\"success\"".data = true := by decide
example : splitLines " a\nb \n".data = ["a".data, "b".data] := by decide
example : pySplit '\n' "a\n\nb".data = ["a".data, [], "b".data] := by decide

/-! Receive events: one outcome per `s.recv(...)` call of a read loop. -/

/-- Outcome of a single `recv` call: a data chunk (an empty chunk is the
peer closing the connection), a `socket.timeout`, or another exception. -/
inductive RecvEv where
  | data (s : Str)
  | timedOut
  | errored
deriving DecidableEq, Repr

/-- How a read loop ended. -/
inductive LoopEnd where
  | completed
  | closedByPeer
  | timedOut
  | errored
  | deadline
deriving DecidableEq, Repr

/-! The read loop of `send_command` in `gen_and_run.py`: accumulate chunks,
break when `isCompleteGA` holds, break on empty chunk, break on
`socket.timeout`, break on any other exception; the `while` deadline is
modelled by exhaustion of the event list. -/

/-- Read loop of `send_command` (`gen_and_run.py`), returning the
accumulated buffer and how the loop ended. -/
def runGA (buf : Str) : List RecvEv → Str × LoopEnd
  | [] => (buf, .deadline)
  | .data s :: rest =>
    if s.isEmpty then (buf, .closedByPeer)
    else
      let buf' := buf ++ s
      if isCompleteGA buf' then (buf', .completed) else runGA buf' rest
  | .timedOut :: _ => (buf, .timedOut)
  | .errored :: _ => (buf, .errored)

/-- Whole-session model of `send_command` (`gen_and_run.py`): `connectOk`
and `sendOk` say whether `s.connect` and `s.sendall` return normally.  The
result is the read-loop result when reached (`none` when an exception
propagates before the loop), paired with the number of times `s.close()`
runs.  The function body has no `try`/`finally`: `s.close()` is only
reached after the loop, so an exception in `connect` or `sendall`
propagates without closing the socket. -/
def sendCommandGA (connectOk sendOk : Bool) (evs : List RecvEv) :
    Option (Str × LoopEnd) × Nat :=
  if !connectOk then (none, 0)
  else if !sendOk then (none, 0)
  else (some (runGA [] evs), 1)

/-! The read loop of `run_script.py`: accumulate chunks, print every
not-yet-printed nonempty line of `decoded.strip().split('\n')`, break when
`isCompleteRS` holds, break on empty chunk, continue on `socket.timeout`,
break (after printing the error) on any other exception. -/

/-- State of the `run_script.py` loop: the accumulated buffer, the
`printed_lines` set (as a list, membership only), the lines printed so far
in order, and — instrumentation — every line ever presented to the
printing `for` loop, in order. -/
structure RSState where
  buf : Str
  printedSet : List Str
  events : List Str
  presented : List Str
deriving DecidableEq, Repr

/-- Initial state of the `run_script.py` loop. -/
def rsInit : RSState := ⟨[], [], [], []⟩

/-- The printing `for` loop of `run_script.py`: `if line and line not in
printed_lines: print(line); printed_lines.add(line)`. -/
def processLines (printedSet events : List Str) : List Str → List Str × List Str
  | [] => (printedSet, events)
  | l :: ls =>
    if !l.isEmpty && !printedSet.contains l then
      processLines (l :: printedSet) (events ++ [l]) ls
    else
      processLines printedSet events ls

/-- One data-chunk iteration of the `run_script.py` loop body. -/
def rsStep (st : RSState) (chunk : Str) : RSState × Bool :=
  let buf := st.buf ++ chunk
  let lines := splitLines buf
  let pr := processLines st.printedSet st.events lines
  (⟨buf, pr.1, pr.2, st.presented ++ lines⟩, isCompleteRS buf)

/-- Read loop of `run_script.py` over a list of receive events, returning
the final state and how the loop ended. -/
def runRS (st : RSState) : List RecvEv → RSState × LoopEnd
  | [] => (st, .deadline)
  | .data s :: rest =>
    if s.isEmpty then (st, .closedByPeer)
    else
      if (rsStep st s).2 then ((rsStep st s).1, .completed)
      else runRS (rsStep st s).1 rest
  | .timedOut :: rest => runRS st rest
  | .errored :: _ => (st, .errored)

/-- Delivery of a text one byte per `recv` call. -/
def oneByteEvs (s : Str) : List RecvEv :=
  s.map (fun c => RecvEv.data [c])

example :
    (runRS rsInit [RecvEv.data "ab\n".data, RecvEv.data "c".data]).1.events
      = ["ab".data, "c".data] := by decide
example :
    (runRS rsInit (oneByteEvs "ab".data)).1.events = ["a".data, "ab".data] := by
  decide

/-! The fire-and-stream loop of `test_script_execute` in `test_ai_agent.py`:
each `recv` chunk is decoded and split on its own (no accumulation); every
nonempty line is printed, and a line containing `SCRIPT_COMPLETE` or
`SCRIPT_ERROR` closes the socket and returns immediately.  An empty chunk
is skipped (there is no `else break`), `socket.timeout` continues, any
other exception breaks. -/

/-- Sentinel test of `test_script_execute` (`test_ai_agent.py`):
`'SCRIPT_COMPLETE' in line or 'SCRIPT_ERROR' in line`. -/
def tseSentinel (l : Str) : Bool :=
  hasSub "SCRIPT_COMPLETE".data l || hasSub "SCRIPT_ERROR".data l

/-- Sentinel test of `test_run_ai_goal` (`test_ai_agent.py`):
`'AI_GOAL_COMPLETE' in line or 'AI_GOAL_ERROR' in line`. -/
def tgSentinel (l : Str) : Bool :=
  hasSub "AI_GOAL_COMPLETE".data l || hasSub "AI_GOAL_ERROR".data l

/-- Sentinel test of `test_execute` (`test_exclude_live.py`):
`'status":"complete' in line or 'SCRIPT_ERROR' in line`. -/
def telSentinel (l : Str) : Bool :=
  hasSub "status\":\"complete".data l || hasSub "SCRIPT_ERROR".data l

/-- The per-chunk printing loop of `test_script_execute`: surface each
nonempty line in order; on a sentinel line, stop right after surfacing it
(returning `true`), discarding the rest of the chunk. -/
def tseProcess : List Str → List Str × Bool
  | [] => ([], false)
  | l :: ls =>
    if l.isEmpty then tseProcess ls
    else if tseSentinel l then ([l], true)
    else (l :: (tseProcess ls).1, (tseProcess ls).2)

/-- Read loop of `test_script_execute` over receive events, returning the
lines surfaced in order, whether a sentinel ended the session, and the
number of times `s.close()` runs (the sentinel path closes and returns;
every other way out of the loop falls through to the final `s.close()`). -/
def runTSE : List RecvEv → List Str × Bool × Nat
  | [] => ([], false, 1)
  | .data s :: rest =>
    if (tseProcess (splitLines s)).2 then ((tseProcess (splitLines s)).1, true, 1)
    else
      ((tseProcess (splitLines s)).1 ++ (runTSE rest).1,
        (runTSE rest).2.1, (runTSE rest).2.2)
  | .timedOut :: rest => runTSE rest
  | .errored :: _ => ([], false, 1)

/-- Whole-session close count of `test_script_execute`, with `connectOk`
saying whether `s.connect`/`s.sendall` return normally; as in
`send_command`, an exception raised before the loop propagates without
closing the socket. -/
def tseCloseCount (connectOk : Bool) (evs : List RecvEv) : Nat :=
  if !connectOk then 0 else (runTSE evs).2.2

example : runTSE [RecvEv.data "ok\nSCRIPT_COMPLETE\nrest".data]
    = (["ok".data, "SCRIPT_COMPLETE".data], true, 1) := by decide
example : runTSE [RecvEv.data "AI_GOAL_COMPLETE\nXYZ".data]
    = (["AI_GOAL_COMPLETE".data, "XYZ".data], false, 1) := by decide

/-! The fallback identifier extraction of `gen_and_run.py` and
`test_full_flow.py`: `re.search(r'"id":\s*"([^"]+)"', result)`, returning
the first capture group of the leftmost match. -/

/-- The literal head of the identifier pattern: `"id":`. -/
def idPat : Str := ['"', 'i', 'd', '"', ':']

/-- Attempt the pattern `"id":\s*"([^"]+)"` at the start of `s`; on a
match, return the capture group (the nonempty run of non-quote characters
inside the quotes). -/
def idCapture (s : Str) : Option Str :=
  if strPre idPat s then
    match (s.drop 5).dropWhile isPyWs with
    | '"' :: t =>
      let cap := t.takeWhile (fun c => c != '"')
      if cap.isEmpty then none
      else if headIs '"' (t.dropWhile (fun c => c != '"')) then some cap
      else none
    | _ => none
  else none

/-- `re.search` semantics for the identifier pattern: try `idCapture` at
every position, leftmost first. -/
def searchId : Str → Option Str
  | [] => none
  | c :: rest =>
    match idCapture (c :: rest) with
    | some v => some v
    | none => searchId rest

/-- The terminal payload `{"id":"v"}` for an identifier `v`. -/
def idPayload (v : Str) : Str :=
  '{' :: '"' :: 'i' :: 'd' :: '"' :: ':' :: '"' :: (v ++ ['"', '}'])

/-- The terminal payload `{"scriptId":"v"}` for an identifier `v`. -/
def scriptIdPayload (v : Str) : Str :=
  '{' :: '"' :: 's' :: 'c' :: 'r' :: 'i' :: 'p' :: 't' :: 'I' :: 'd' :: '"'
    :: ':' :: '"' :: (v ++ ['"', '}'])

example : idPayload "abc".data = "\x7b\"id\":\"abc\"\x7d".data := by decide
example : scriptIdPayload "abc".data = "\x7b\"scriptId\":\"abc\"\x7d".data := by decide
example : searchId "\x7b\"id\":\"abc\"\x7d".data = some "abc".data := by decide
example : searchId "\x7b\"id\": \"abc\"\x7d".data = some "abc".data := by decide
example : searchId "\x7b\"scriptId\":\"abc\"\x7d".data = none := by decide

/-! The success check of `test_full_flow.py`:
`success = '"success": true' in exec_result or '"success":true' in exec_result`. -/

/-- The substring `"success": true` (space after the colon). -/
def succTrueSpace : Str := "\"success\": true".data

/-- The substring `"success":true` (no space). -/
def succTrueTight : Str := "\"success\":true".data

/-- The caller-side success scan of `test_full_flow.py`. -/
def successScan (s : Str) : Bool :=
  hasSub succTrueSpace s || hasSub succTrueTight s

example : successScan "\x7b\"success\":true\x7d".data = true := by decide
example : successScan "\x7b\"success\": true\x7d".data = true := by decide
example : successScan "\x7b\"success\":\"true\"\x7d".data = false := by decide

/-! Helper lemmas about the string primitives. -/

theorem strPre_append_self (p u : Str) : strPre p (p ++ u) = true := by
  induction p with
  | nil => rfl
  | cons c p ih => simp [strPre, ih]

theorem hasSub_of_strPre {pat s : Str} (h : strPre pat s = true) :
    hasSub pat s = true := by
  cases s with
  | nil => simpa [hasSub] using h
  | cons c rest => simp [hasSub, h]

theorem hasSub_append_mid (pat t u : Str) :
    hasSub pat (t ++ (pat ++ u)) = true := by
  induction t with
  | nil => simpa using hasSub_of_strPre (strPre_append_self pat u)
  | cons c t ih => simp [hasSub, ih]

theorem hasSub_nil_of_cons (c : Char) (p : Str) : hasSub (c :: p) [] = false := rfl

theorem endsWithCh_pyRstrip (c : Char) (s : Str) :
    endsWithCh c (pyRstrip s) = headIs c (s.reverse.dropWhile isPyWs) := by
  simp [endsWithCh, pyRstrip]

theorem endsBrace_append (t l : Str) :
    endsWithCh '}' (pyRstrip (t ++ (l ++ ['}']))) = true := by
  rw [endsWithCh_pyRstrip]
  have hb : isPyWs '}' = false := by decide
  simp [List.reverse_append, List.dropWhile_cons, hb, headIs]

theorem dropWhile_eq_self_of (p : Char → Bool) (s : Str)
    (h : ∀ c ∈ s, p c = false) : s.dropWhile p = s := by
  cases s with
  | nil => rfl
  | cons c rest => simp [List.dropWhile_cons, h c (by simp)]

theorem pyStrip_eq_self (s : Str) (h : ∀ c ∈ s, isPyWs c = false) :
    pyStrip s = s := by
  unfold pyStrip
  rw [dropWhile_eq_self_of _ _ h, dropWhile_eq_self_of, List.reverse_reverse]
  intro c hc
  exact h c (by simpa using hc)

theorem pySplit_no_sep (sep : Char) (s : Str) (h : ∀ c ∈ s, c ≠ sep) :
    pySplit sep s = [s] := by
  induction s with
  | nil => rfl
  | cons c rest ih =>
    have hc : (c == sep) = false := by simpa using h c (by simp)
    simp [pySplit, hc, ih (fun d hd => h d (by simp [hd]))]

theorem splitLines_single (s : Str) (h : ∀ c ∈ s, isPyWs c = false) :
    splitLines s = [s] := by
  unfold splitLines
  rw [pyStrip_eq_self s h]
  refine pySplit_no_sep '\n' s (fun c hc hEq => ?_)
  subst hEq
  exact absurd (h _ hc) (by decide)

theorem takeWhile_until_quote (v r : Str) (h : ∀ c ∈ v, c ≠ '"') :
    (v ++ '"' :: r).takeWhile (fun c => c != '"') = v := by
  induction v with
  | nil => simp [List.takeWhile_cons]
  | cons c vs ih =>
    have hc : (c != '"') = true := by simpa using h c (by simp)
    simp [List.takeWhile_cons, hc, ih (fun d hd => h d (by simp [hd]))]

theorem dropWhile_until_quote (v r : Str) (h : ∀ c ∈ v, c ≠ '"') :
    (v ++ '"' :: r).dropWhile (fun c => c != '"') = '"' :: r := by
  induction v with
  | nil => simp [List.dropWhile_cons]
  | cons c vs ih =>
    have hc : (c != '"') = true := by simpa using h c (by simp)
    simp [List.dropWhile_cons, hc, ih (fun d hd => h d (by simp [hd]))]

/-! Claim C1: completion detection. -/

/-- The tail `"status":"success"}` of a complete successful response. -/
def succClose : Str := succPat ++ ['}']

/-- C1, counterexample.  The claim tolerates a space after the colon, but
the detector of `send_command` (`gen_and_run.py`) matches only the exact
substrings: the text `{"status": "success"}` carries the space variant and
ends with a brace, yet the detector rejects it.  Moreover the read loop of
`generate_script.py` declares the brace-less prefix `{"status":"success"`
complete even though, after trimming, it does not end with a brace. -/
theorem c1_counterexample :
    isCompleteGA "\x7b\"status\": \"success\"\x7d".data = false
    ∧ hasSub "\"status\": \"success\"".data "\x7b\"status\": \"success\"\x7d".data = true
    ∧ endsWithCh '}' (pyRstrip "\x7b\"status\": \"success\"\x7d".data) = true
    ∧ isCompleteGS "\x7b\"status\":\"success\"".data = true
    ∧ endsWithCh '}' (pyRstrip "\x7b\"status\":\"success\"".data) = false := by
  decide

/-- C1, amended.  The detector of `send_command` in `gen_and_run.py`
declares the session complete iff the decoded text contains one of the
exact substrings `"status":"success"`, `"status":"complete"`,
`"status":"failed"` — with no space tolerated after the colon — and, after
trimming trailing whitespace, ends with a closing brace.  Consequently
every response ending in `"status":"success"}` is declared complete, and
any text that does not end in a brace after trimming is not, even when a
status substring is present.  The separate read loop of
`generate_script.py` breaks on the success/failed substring alone, without
the trailing-brace requirement. -/
theorem c1_amended_complete_detector (t s : Str)
    (h : endsWithCh '}' (pyRstrip s) = false) :
    isCompleteGA (t ++ succClose) = true
    ∧ isCompleteGA s = false
    ∧ isCompleteGS "\x7b\"status\":\"success\"".data = true := by
  refine ⟨?_, ?_, by decide⟩
  · have h1 : hasSub succPat (t ++ succClose) = true := by
      simpa [succClose] using hasSub_append_mid succPat t ['}']
    have h2 : endsWithCh '}' (pyRstrip (t ++ succClose)) = true := by
      simpa [succClose] using endsBrace_append t succPat
    simp [isCompleteGA, h1, h2]
  · simp [isCompleteGA, h]

/-- C1, witness for the amended theorem at a concrete input. -/
theorem c1_amended_witness :
    isCompleteGA ("\x7b".data ++ succClose) = true
    ∧ isCompleteGA "\x7b\"status\":\"success\"".data = false
    ∧ isCompleteGS "\x7b\"status\":\"success\"".data = true :=
  c1_amended_complete_detector "\x7b".data "\x7b\"status\":\"success\"".data (by decide)

/-! Claim C7: success-flag tolerance. -/

/-- C7, counterexample.  The payload `{"success":"true"}` carries the
quoted string form of the success flag, yet the scan of
`test_full_flow.py` reports no success: it looks only for the two boolean
forms `"success": true` and `"success":true`. -/
theorem c7_counterexample :
    hasSub "\"success\":\"true\"".data "\x7b\"success\":\"true\"\x7d".data = true
    ∧ successScan "\x7b\"success\":\"true\"\x7d".data = false := by
  decide

/-- C7, amended.  The success scan of `test_full_flow.py` accepts every
payload containing the JSON boolean form of the success field, with or
without a space after the colon, and rejects the quoted string form
`"success":"true"`. -/
theorem c7_amended_success_scan (t u : Str) :
    successScan (t ++ (succTrueSpace ++ u)) = true
    ∧ successScan (t ++ (succTrueTight ++ u)) = true
    ∧ successScan "\x7b\"success\":\"true\"\x7d".data = false := by
  refine ⟨?_, ?_, by decide⟩
  · simp [successScan, hasSub_append_mid]
  · simp [successScan, hasSub_append_mid]

/-! Claim C3: identifier extraction.  Lemmas locating where the pattern
`"id":\s*"([^"]+)"` can and cannot match. -/

theorem idCapture_cons_ne (c : Char) (s : Str) (h : c ≠ '"') :
    idCapture (c :: s) = none := by
  have hc : ('"' == c) = false := by
    simpa [beq_eq_false_iff_ne] using Ne.symm h
  simp [idCapture, idPat, strPre, hc]

theorem idCapture_quote_ne_i (c : Char) (s : Str) (h : c ≠ 'i') :
    idCapture ('"' :: c :: s) = none := by
  have hc : ('i' == c) = false := by
    simpa [beq_eq_false_iff_ne] using Ne.symm h
  simp [idCapture, idPat, strPre, hc]

theorem idCapture_quote_i_ne_d (c : Char) (s : Str) (h : c ≠ 'd') :
    idCapture ('"' :: 'i' :: c :: s) = none := by
  have hc : ('d' == c) = false := by
    simpa [beq_eq_false_iff_ne] using Ne.symm h
  simp [idCapture, idPat, strPre, hc]

theorem idCapture_quote_id_ne_q (c : Char) (s : Str) (h : c ≠ '"') :
    idCapture ('"' :: 'i' :: 'd' :: c :: s) = none := by
  have hc : ('"' == c) = false := by
    simpa [beq_eq_false_iff_ne] using Ne.symm h
  simp [idCapture, idPat, strPre, hc]

theorem idCapture_quote_tail_none (v : Str) (h : ∀ c ∈ v, c ≠ '"') :
    idCapture ('"' :: (v ++ ['"', '}'])) = none := by
  cases v with
  | nil => decide
  | cons a v' =>
    by_cases ha : a = 'i'
    · subst ha
      cases v' with
      | nil => decide
      | cons b v'' =>
        by_cases hb : b = 'd'
        · subst hb
          cases v'' with
          | nil => decide
          | cons e v''' =>
            exact idCapture_quote_id_ne_q e _ (h e (by simp))
        · exact idCapture_quote_i_ne_d b _ hb
    · exact idCapture_quote_ne_i a _ ha

theorem searchId_skip (c : Char) (s : Str) (h : idCapture (c :: s) = none) :
    searchId (c :: s) = searchId s := by
  simp [searchId, h]

theorem searchId_found (c : Char) (s v : Str) (h : idCapture (c :: s) = some v) :
    searchId (c :: s) = some v := by
  simp [searchId, h]

theorem searchId_tail_none (v : Str) (h : ∀ c ∈ v, c ≠ '"') :
    searchId (v ++ ['"', '}']) = none := by
  induction v with
  | nil => decide
  | cons c v' ih =>
    rw [List.cons_append, searchId_skip c _ (idCapture_cons_ne c _ (h c (by simp)))]
    exact ih (fun d hd => h d (by simp [hd]))

theorem idCapture_at_id (v : Str) (h1 : v ≠ []) (h2 : ∀ c ∈ v, c ≠ '"') :
    idCapture ('"' :: 'i' :: 'd' :: '"' :: ':' :: '"' :: (v ++ ['"', '}']))
      = some v := by
  have hpre : strPre idPat
      ('"' :: 'i' :: 'd' :: '"' :: ':' :: '"' :: (v ++ ['"', '}'])) = true := by
    simp [idPat, strPre]
  have hq : isPyWs '"' = false := by decide
  have hne : v.isEmpty = false := by
    cases v with
    | nil => exact absurd rfl h1
    | cons a l => rfl
  have htk : (v ++ ['"', '}']).takeWhile (fun c => c != '"') = v := by
    simpa using takeWhile_until_quote v ['}'] h2
  have hdr : (v ++ ['"', '}']).dropWhile (fun c => c != '"') = '"' :: ['}'] := by
    simpa using dropWhile_until_quote v ['}'] h2
  simp [idCapture, hpre, hq, List.dropWhile_cons, htk, hdr, hne, headIs]

/-- C3, counterexample.  The fallback scan extracts `abc` from
`{"id":"abc"}` but extracts nothing from `{"scriptId":"abc"}`: its pattern
demands a double quote immediately before `id`, which the field name
`scriptId` does not provide. -/
theorem c3_counterexample :
    searchId "\x7b\"id\":\"abc\"\x7d".data = some "abc".data
    ∧ searchId "\x7b\"scriptId\":\"abc\"\x7d".data = none := by
  decide

/-- C3, amended.  For every nonempty quote-free identifier `v`, the
fallback scan `"id":\s*"([^"]+)"` extracts `v` from the terminal payload
`{"id":"v"}` and extracts nothing at all from `{"scriptId":"v"}`; the
extraction is not invariant to the field-name choice, and the `scriptId`
spelling is only handled by the full JSON parsing paths, never by the
fallback scan. -/
theorem c3_amended_id_extraction (v : Str) (h1 : v ≠ [])
    (h2 : ∀ c ∈ v, c ≠ '"') :
    searchId (idPayload v) = some v ∧ searchId (scriptIdPayload v) = none := by
  constructor
  · unfold idPayload
    rw [searchId_skip '{' _ (idCapture_cons_ne '{' _ (by decide))]
    exact searchId_found _ _ _ (idCapture_at_id v h1 h2)
  · unfold scriptIdPayload
    rw [searchId_skip '{' _ (idCapture_cons_ne '{' _ (by decide))]
    rw [searchId_skip '"' _ (idCapture_quote_ne_i 's' _ (by decide))]
    rw [searchId_skip 's' _ (idCapture_cons_ne 's' _ (by decide))]
    rw [searchId_skip 'c' _ (idCapture_cons_ne 'c' _ (by decide))]
    rw [searchId_skip 'r' _ (idCapture_cons_ne 'r' _ (by decide))]
    rw [searchId_skip 'i' _ (idCapture_cons_ne 'i' _ (by decide))]
    rw [searchId_skip 'p' _ (idCapture_cons_ne 'p' _ (by decide))]
    rw [searchId_skip 't' _ (idCapture_cons_ne 't' _ (by decide))]
    rw [searchId_skip 'I' _ (idCapture_cons_ne 'I' _ (by decide))]
    rw [searchId_skip 'd' _ (idCapture_cons_ne 'd' _ (by decide))]
    rw [searchId_skip '"' _ (idCapture_quote_ne_i ':' _ (by decide))]
    rw [searchId_skip ':' _ (idCapture_cons_ne ':' _ (by decide))]
    rw [searchId_skip '"' _ (idCapture_quote_tail_none v h2)]
    exact searchId_tail_none v h2

/-- C3, witness for the amended theorem at the identifier `abc`. -/
theorem c3_amended_witness :
    searchId (idPayload "abc".data) = some "abc".data
    ∧ searchId (scriptIdPayload "abc".data) = none :=
  c3_amended_id_extraction "abc".data (by decide) (by decide)

/-! Lemmas about the printing loop of `run_script.py`. -/

theorem processLines_mono (ls : List Str) (ps es : List Str) (x : Str)
    (h : x ∈ es) : x ∈ (processLines ps es ls).2 := by
  induction ls generalizing ps es with
  | nil => simpa [processLines] using h
  | cons l ls ih =>
    simp only [processLines]
    split
    · exact ih _ _ (by simp [h])
    · exact ih _ _ h

theorem processLines_inv (ls : List Str) (ps es : List Str)
    (hnd : es.Nodup) (hiff : ∀ x, x ∈ ps ↔ x ∈ es) :
    (processLines ps es ls).2.Nodup
    ∧ (∀ x, x ∈ (processLines ps es ls).1 ↔ x ∈ (processLines ps es ls).2)
    ∧ (∀ l ∈ ls, l ≠ [] → l ∈ (processLines ps es ls).2) := by
  induction ls generalizing ps es with
  | nil => exact ⟨hnd, hiff, by simp⟩
  | cons l ls ih =>
    simp only [processLines]
    by_cases hc : (!l.isEmpty && !ps.contains l) = true
    · rw [if_pos hc]
      have hlps : l ∉ ps := by
        have hc' := hc
        simp at hc'
        exact hc'.2
      have hles : l ∉ es := fun hmem => hlps ((hiff l).mpr hmem)
      have hnd' : (es ++ [l]).Nodup := by
        simp [List.nodup_append, hnd, hles]
      have hiff' : ∀ x, x ∈ l :: ps ↔ x ∈ es ++ [l] := by
        intro x
        simp only [List.mem_cons, List.mem_append, List.mem_singleton, hiff x]
        tauto
      obtain ⟨g1, g2, g3⟩ := ih (l :: ps) (es ++ [l]) hnd' hiff'
      refine ⟨g1, g2, ?_⟩
      intro l' hl' hne
      rcases List.mem_cons.mp hl' with rfl | hmem
      · exact processLines_mono ls _ _ l' (by simp)
      · exact g3 l' hmem hne
    · rw [if_neg hc]
      obtain ⟨g1, g2, g3⟩ := ih ps es hnd hiff
      refine ⟨g1, g2, ?_⟩
      intro l' hl' hne
      rcases List.mem_cons.mp hl' with rfl | hmem
      · have hni : l'.isEmpty = false := by
          cases l' with
          | nil => exact absurd rfl hne
          | cons a t => rfl
        have hcont : ps.contains l' = true := by
          rcases Bool.and_eq_false_iff.mp (Bool.eq_false_iff.mpr hc) with h | h
          · rw [hni] at h; simp at h
          · simpa using h
        have : l' ∈ es := (hiff l').mp (by simpa using hcont)
        exact processLines_mono ls _ _ l' this
      · exact g3 l' hmem hne

/-- Invariant of the `run_script.py` loop state: printed lines are exactly
the emitted lines, no line is emitted twice, and every nonempty line ever
presented has been emitted. -/
def RSInv (st : RSState) : Prop :=
  st.events.Nodup
    ∧ (∀ x, x ∈ st.printedSet ↔ x ∈ st.events)
    ∧ (∀ x, x ≠ [] → x ∈ st.presented → x ∈ st.events)

theorem rsStep_inv (st : RSState) (chunk : Str) (h : RSInv st) :
    RSInv (rsStep st chunk).1 := by
  obtain ⟨h1, h2, h3⟩ := h
  obtain ⟨g1, g2, g3⟩ :=
    processLines_inv (splitLines (st.buf ++ chunk)) st.printedSet st.events h1 h2
  refine ⟨g1, g2, ?_⟩
  intro x hx hmem
  simp only [rsStep] at hmem ⊢
  rcases List.mem_append.mp hmem with hold | hnew
  · exact processLines_mono _ _ _ x (h3 x hx hold)
  · exact g3 x hnew hx

theorem runRS_inv (evs : List RecvEv) (st : RSState) (h : RSInv st) :
    RSInv (runRS st evs).1 := by
  induction evs generalizing st with
  | nil => simpa [runRS] using h
  | cons e rest ih =>
    cases e with
    | data s =>
      cases hs : s.isEmpty with
      | true => simpa [runRS, hs] using h
      | false =>
        cases hd : (rsStep st s).2 with
        | true => simpa [runRS, hs, hd] using rsStep_inv st s h
        | false =>
          simpa [runRS, hs, hd] using ih (rsStep st s).1 (rsStep_inv st s h)
    | timedOut => simpa [runRS] using ih st h
    | errored => simpa [runRS] using h

theorem count_eq_one_of_nodup_mem {x : Str} {l : List Str} (hnd : l.Nodup)
    (hm : x ∈ l) : l.count x = 1 := by
  induction l with
  | nil => cases hm
  | cons a l ih =>
    rcases List.mem_cons.mp hm with rfl | hmem
    · have hnotin : x ∉ l := (List.nodup_cons.mp hnd).1
      simp [List.count_cons_self, List.count_eq_zero.mpr hnotin]
    · have h1 := ih (List.nodup_cons.mp hnd).2 hmem
      have hax : x ≠ a := fun he => (List.nodup_cons.mp hnd).1 (he ▸ hmem)
      simp [List.count_cons, h1, hax]

/-! Claim C5: deduplication. -/

/-- C5.  In the `run_script.py` loop, every nonempty line that is ever
presented to the printing loop — however many times it reappears at the
head of the growing buffer across read iterations — is printed exactly
once over the whole session. -/
theorem c5_dedupe_exactly_once (evs : List RecvEv) (l : Str) (h1 : l ≠ [])
    (h2 : l ∈ (runRS rsInit evs).1.presented) :
    ((runRS rsInit evs).1.events).count l = 1 := by
  have hinv : RSInv (runRS rsInit evs).1 :=
    runRS_inv evs rsInit ⟨List.nodup_nil, by simp [rsInit], by simp [rsInit]⟩
  exact count_eq_one_of_nodup_mem hinv.1 (hinv.2.2 l h1 h2)

/-- C5, witness: the line `ab` stays at the head of the buffer across two
reads, is presented twice, and is printed exactly once. -/
theorem c5_dedupe_witness :
    ("ab".data ∈
      (runRS rsInit [RecvEv.data "ab\n".data, RecvEv.data "c".data]).1.presented)
    ∧ ((runRS rsInit
        [RecvEv.data "ab\n".data, RecvEv.data "c".data]).1.events).count "ab".data
        = 1 :=
  ⟨by decide,
    c5_dedupe_exactly_once [RecvEv.data "ab\n".data, RecvEv.data "c".data]
      "ab".data (by decide) (by decide)⟩

/-! Claim C2: chunking-invariance. -/

theorem runRS_data_cons (st : RSState) (s : Str) (rest : List RecvEv)
    (hne : s.isEmpty = false) (hd : (rsStep st s).2 = false) :
    runRS st (RecvEv.data s :: rest) = runRS (rsStep st s).1 rest := by
  simp only [runRS, hne, hd, Bool.false_eq_true, if_false]

theorem runRS_oneByte_buf (s : Str) (st : RSState)
    (h : ∀ k ∈ List.range (s.length - 1),
      isCompleteRS (st.buf ++ s.take (k + 1)) = false) :
    (runRS st (oneByteEvs s)).1.buf = st.buf ++ s := by
  induction s generalizing st with
  | nil => simp [oneByteEvs, runRS]
  | cons c s' ih =>
    have hne : ([c] : Str).isEmpty = false := rfl
    have hbuf : ((rsStep st [c]).1).buf = st.buf ++ [c] := rfl
    cases s' with
    | nil =>
      cases hd : (rsStep st [c]).2 with
      | true => simp [oneByteEvs, runRS, hne, hd, hbuf]
      | false => simp [oneByteEvs, runRS, hne, hd, hbuf]
    | cons d s'' =>
      have h0 : isCompleteRS (st.buf ++ [c]) = false := by
        have := h 0 (by simp)
        simpa using this
      have hd : (rsStep st [c]).2 = false := h0
      have hrec := ih (rsStep st [c]).1 (by
        intro k hk
        have hk' : k + 1 ∈ List.range ((c :: d :: s'').length - 1) := by
          simp only [List.mem_range] at hk ⊢
          simpa using Nat.succ_lt_succ hk
        have := h (k + 1) hk'
        simpa [hbuf, List.append_assoc] using this)
      rw [show oneByteEvs (c :: d :: s'') =
            RecvEv.data [c] :: oneByteEvs (d :: s'') from rfl]
      rw [runRS_data_cons st [c] _ hne hd, hrec, hbuf, List.append_assoc]
      rfl

theorem runRS_single_buf (s : Str) :
    (runRS rsInit [RecvEv.data s]).1.buf = s := by
  cases hs : s.isEmpty with
  | true =>
    have : s = [] := by
      cases s with
      | nil => rfl
      | cons a t => simp at hs
    subst this
    simp [runRS, rsInit]
  | false =>
    cases hd : isCompleteRS s with
    | true => simp [runRS, hs, hd, rsStep, rsInit]
    | false => simp [runRS, hs, hd, rsStep, rsInit]

/-- C2, counterexample.  Delivering the response bytes `ab` one byte per
`recv` makes the `run_script.py` loop surface the incomplete prefix `a`
and then `ab`, while delivering them as one chunk surfaces only `ab`: the
emitted line sequences differ.  Worse, for a stream whose first line
already satisfies the completion heuristic, one-byte delivery breaks
before ever reading the second line, so the complete JSON line
`{"x":1}` is emitted under single-chunk delivery but never under
one-byte delivery. -/
theorem c2_counterexample :
    ((runRS rsInit (oneByteEvs "ab".data)).1.events
      ≠ (runRS rsInit [RecvEv.data "ab".data]).1.events)
    ∧ ("\x7b\"x\":1\x7d".data ∈
        (runRS rsInit
          [RecvEv.data "\x7b\"status\":\"complete\"\x7d\n\x7b\"x\":1\x7d".data]).1.events)
    ∧ ("\x7b\"x\":1\x7d".data ∉
        (runRS rsInit
          (oneByteEvs "\x7b\"status\":\"complete\"\x7d\n\x7b\"x\":1\x7d".data)).1.events) := by
  decide

/-- C2, amended.  Chunking-invariance fails for the emitted line sequence
(one-byte delivery can additionally surface incomplete prefixes of a
line), but the accumulated response buffer is chunking-invariant: for
every response whose proper prefixes never satisfy the completion
heuristic, one-byte delivery and single-chunk delivery both end with the
full response as the buffer. -/
theorem c2_amended_buffer_invariance (s : Str)
    (h : ∀ k ∈ List.range (s.length - 1),
      isCompleteRS (s.take (k + 1)) = false) :
    (runRS rsInit (oneByteEvs s)).1.buf = (runRS rsInit [RecvEv.data s]).1.buf
    ∧ (runRS rsInit (oneByteEvs s)).1.buf = s := by
  have h1 : (runRS rsInit (oneByteEvs s)).1.buf = s := by
    have := runRS_oneByte_buf s rsInit (by simpa [rsInit] using h)
    simpa [rsInit] using this
  exact ⟨by rw [h1, runRS_single_buf], h1⟩

/-- C2, witness for the amended theorem on the response `ab`. -/
theorem c2_amended_witness :
    ((runRS rsInit (oneByteEvs "ab".data)).1.buf
      = (runRS rsInit [RecvEv.data "ab".data]).1.buf)
    ∧ (runRS rsInit (oneByteEvs "ab".data)).1.buf = "ab".data :=
  c2_amended_buffer_invariance "ab".data (by decide)

/-! Claim C9: per-read timeouts never terminate the run_script loop. -/

/-- Test whether a receive event is a `socket.timeout`. -/
def isTimeoutEv : RecvEv → Bool
  | .timedOut => true
  | _ => false

theorem runRS_filter_timeouts (evs : List RecvEv) (st : RSState) :
    runRS st (evs.filter (fun e => !isTimeoutEv e)) = runRS st evs := by
  induction evs generalizing st with
  | nil => rfl
  | cons e rest ih =>
    cases e with
    | data s =>
      have hflt : (RecvEv.data s :: rest).filter (fun e => !isTimeoutEv e)
          = RecvEv.data s :: rest.filter (fun e => !isTimeoutEv e) := by
        simp [List.filter, isTimeoutEv]
      rw [hflt]
      cases hs : s.isEmpty with
      | true => simp [runRS, hs]
      | false =>
        cases hd : (rsStep st s).2 with
        | true => simp [runRS, hs, hd]
        | false =>
          rw [runRS_data_cons st s (rest.filter (fun e => !isTimeoutEv e)) hs hd,
            runRS_data_cons st s rest hs hd, ih]
    | timedOut => simpa [runRS, List.filter, isTimeoutEv] using ih st
    | errored => simp [runRS, List.filter, isTimeoutEv]

theorem runRS_ne_timedOut (evs : List RecvEv) (st : RSState) :
    (runRS st evs).2 ≠ LoopEnd.timedOut := by
  induction evs generalizing st with
  | nil => simp [runRS]
  | cons e rest ih =>
    cases e with
    | data s =>
      cases hs : s.isEmpty with
      | true => simp [runRS, hs]
      | false =>
        cases hd : (rsStep st s).2 with
        | true => simp [runRS, hs, hd]
        | false => simpa [runRS, hs, hd] using ih (rsStep st s).1
    | timedOut => simpa [runRS] using ih st
    | errored => simp [runRS]

/-- C9.  In the `run_script.py` read loop a `socket.timeout` only
`continue`s: deleting every timeout event from a session leaves the final
state and exit cause unchanged, the loop never exits with a timeout cause,
and stepping over a timeout event is the identity. -/
theorem c9_timeout_never_terminates (evs : List RecvEv) (st : RSState) :
    runRS st (evs.filter (fun e => !isTimeoutEv e)) = runRS st evs
    ∧ (runRS st evs).2 ≠ LoopEnd.timedOut
    ∧ runRS st (RecvEv.timedOut :: evs) = runRS st evs :=
  ⟨runRS_filter_timeouts evs st, runRS_ne_timedOut evs st, rfl⟩

/-! Claim C10: a line split across two reads is surfaced twice. -/

/-- C10.  Dedup in `run_script.py` is by exact raw-line string equality
over the re-split buffer: when a whitespace-free line arrives split as two
chunks, the incomplete prefix is printed as a line of its own and the
completed full line is printed again — the same logical line is surfaced
twice. -/
theorem c10_split_line_surfaced_twice (l1 l2 : Str) (h1 : l1 ≠ []) (h2 : l2 ≠ [])
    (h3 : ∀ c ∈ l1 ++ l2, isPyWs c = false)
    (h4 : isCompleteRS l1 = false) :
    (runRS rsInit [RecvEv.data l1, RecvEv.data l2]).1.events = [l1, l1 ++ l2] := by
  have h3a : ∀ c ∈ l1, isPyWs c = false := fun c hc =>
    h3 c (List.mem_append.mpr (Or.inl hc))
  have hsl1 : splitLines l1 = [l1] := splitLines_single l1 h3a
  have hsl12 : splitLines (l1 ++ l2) = [l1 ++ l2] := splitLines_single _ h3
  have hne1 : l1.isEmpty = false := by
    cases l1 with
    | nil => exact absurd rfl h1
    | cons a t => rfl
  have hne2 : l2.isEmpty = false := by
    cases l2 with
    | nil => exact absurd rfl h2
    | cons a t => rfl
  have hne12 : (l1 ++ l2).isEmpty = false := by
    cases l1 with
    | nil => exact absurd rfl h1
    | cons a t => rfl
  have hneq : l1 ++ l2 ≠ l1 := by
    intro he
    apply h2
    have hl := congrArg List.length he
    simp only [List.length_append] at hl
    have : l2.length = 0 := by omega
    exact List.eq_nil_of_length_eq_zero this
  have hstep1 : rsStep rsInit l1 = (⟨l1, [l1], [l1], [l1]⟩, false) := by
    simp [rsStep, rsInit, hsl1, processLines, hne1, h4]
  have hstep2 : rsStep ⟨l1, [l1], [l1], [l1]⟩ l2
      = (⟨l1 ++ l2, [l1 ++ l2, l1], [l1, l1 ++ l2], [l1, l1 ++ l2]⟩,
          isCompleteRS (l1 ++ l2)) := by
    simp [rsStep, hsl12, processLines, hne12, hneq]
  rw [runRS_data_cons rsInit l1 [RecvEv.data l2] hne1 (by simp [hstep1]), hstep1]
  cases hd2 : isCompleteRS (l1 ++ l2) with
  | true => simp [runRS, hne2, hstep2, hd2]
  | false =>
    rw [runRS_data_cons _ l2 [] hne2 (by simp [hstep2, hd2]), hstep2]
    rfl

/-- C10, witness: the line `abc` delivered as `ab` then `c` is surfaced
first as `ab` and then again as `abc`. -/
theorem c10_split_line_witness :
    (runRS rsInit [RecvEv.data "ab".data, RecvEv.data "c".data]).1.events
      = ["ab".data, "ab".data ++ "c".data] :=
  c10_split_line_surfaced_twice "ab".data "c".data (by decide) (by decide)
    (by decide) (by decide)

/-! Claim C6: a timeout (or the deadline) returns the partial buffer. -/

theorem runGA_datas (ds : List Str) (buf : Str) (tail : List RecvEv)
    (hne : ∀ d ∈ ds, d ≠ [])
    (hnc : ∀ k ∈ List.range ds.length,
      isCompleteGA (buf ++ (ds.take (k + 1)).flatten) = false) :
    runGA buf (ds.map RecvEv.data ++ tail) = runGA (buf ++ ds.flatten) tail := by
  induction ds generalizing buf with
  | nil => simp
  | cons d ds' ih =>
    have hdne : d.isEmpty = false := by
      have hd := hne d (by simp)
      cases d with
      | nil => exact absurd rfl hd
      | cons a t => rfl
    have h0 : isCompleteGA (buf ++ d) = false := by
      have := hnc 0 (by simp)
      simpa using this
    rw [List.map_cons, List.cons_append]
    rw [show runGA buf (RecvEv.data d :: (ds'.map RecvEv.data ++ tail))
        = runGA (buf ++ d) (ds'.map RecvEv.data ++ tail) from by
      simp [runGA, hdne, h0]]
    rw [ih (buf ++ d) (fun x hx => hne x (by simp [hx])) ?_]
    · simp [List.append_assoc]
    · intro k hk
      have hk' : k + 1 ∈ List.range (d :: ds').length := by
        simp only [List.mem_range] at hk ⊢
        simpa using Nat.succ_lt_succ hk
      have := hnc (k + 1) hk'
      simpa [List.append_assoc] using this

/-- C6.  When the `send_command` read loop of `gen_and_run.py` ends by a
per-read `socket.timeout`, or by the outer deadline elapsing, before the
completion heuristic ever matched, the whole buffer accumulated so far is
still returned to the caller, never discarded. -/
theorem c6_timeout_returns_buffer (ds : List Str)
    (hne : ∀ d ∈ ds, d ≠ [])
    (hnc : ∀ k ∈ List.range ds.length,
      isCompleteGA ((ds.take (k + 1)).flatten) = false) :
    runGA [] (ds.map RecvEv.data ++ [RecvEv.timedOut])
      = (ds.flatten, LoopEnd.timedOut)
    ∧ runGA [] (ds.map RecvEv.data) = (ds.flatten, LoopEnd.deadline) := by
  have h1 := runGA_datas ds [] [RecvEv.timedOut] hne (by simpa using hnc)
  have h2 := runGA_datas ds [] [] hne (by simpa using hnc)
  constructor
  · rw [h1]
    rfl
  · rw [show ds.map RecvEv.data = ds.map RecvEv.data ++ [] from
      (List.append_nil _).symm, h2]
    rfl

/-- C6, witness at the single partial chunk `ab` that never completes. -/
theorem c6_timeout_witness :
    runGA [] (["ab".data].map RecvEv.data ++ [RecvEv.timedOut])
      = (["ab".data].flatten, LoopEnd.timedOut)
    ∧ runGA [] (["ab".data].map RecvEv.data)
      = (["ab".data].flatten, LoopEnd.deadline) :=
  c6_timeout_returns_buffer ["ab".data] (by decide) (by decide)

/-! Claim C4: resource cleanup. -/

theorem runTSE_closes (evs : List RecvEv) : (runTSE evs).2.2 = 1 := by
  induction evs with
  | nil => rfl
  | cons e rest ih =>
    cases e with
    | data s =>
      cases hp : (tseProcess (splitLines s)).2 with
      | true => simp [runTSE, hp]
      | false => simp [runTSE, hp, ih]
    | timedOut => simpa [runTSE] using ih
    | errored => rfl

/-- C4, counterexample.  When `s.connect` raises (connection refused) the
socket of `send_command` (`gen_and_run.py`) — and likewise of
`test_script_execute` (`test_ai_agent.py`) — is never closed: there is no
`try`/`finally` around the code before the loop, so the close count on
that exit path is 0, not 1. -/
theorem c4_counterexample :
    (sendCommandGA false true []).2 = 0
    ∧ (sendCommandGA false true []).2 ≠ 1
    ∧ tseCloseCount false [] = 0 := by
  decide

/-- C4, amended.  Whenever `connect` and `sendall` return normally, the
socket is closed exactly once on every exit path of the read loop of
`send_command` and of `test_script_execute` (completion, peer close,
timeout, exception, sentinel return, deadline); but when `connect` or
`sendall` raises, the socket is never closed by the function. -/
theorem c4_amended_close_exactly_once (b : Bool) (evs : List RecvEv) :
    (sendCommandGA true true evs).2 = 1
    ∧ (sendCommandGA false b evs).2 = 0
    ∧ (sendCommandGA true false evs).2 = 0
    ∧ tseCloseCount true evs = 1
    ∧ tseCloseCount false evs = 0 := by
  refine ⟨rfl, rfl, rfl, ?_, rfl⟩
  simpa [tseCloseCount] using runTSE_closes evs

/-! Claim C8: sentinel-based early termination. -/

theorem tseSentinel_ne_nil (l : Str) (h : tseSentinel l = true) :
    l.isEmpty = false := by
  cases l with
  | nil => exact absurd h (by decide)
  | cons a t => rfl

theorem tseProcess_sentinel (pre post : List Str) (l : Str)
    (hsent : tseSentinel l = true)
    (hpre : ∀ x ∈ pre, tseSentinel x = false) :
    tseProcess (pre ++ l :: post)
      = (pre.filter (fun x => !x.isEmpty) ++ [l], true) := by
  induction pre with
  | nil =>
    simp [tseProcess, tseSentinel_ne_nil l hsent, hsent]
  | cons x pre' ih =>
    have hrec := ih (fun y hy => hpre y (by simp [hy]))
    cases hx : x.isEmpty with
    | true => simp [tseProcess, hx, List.filter_cons, hrec]
    | false =>
      simp [tseProcess, hx, hpre x (by simp), List.filter_cons, hrec]

/-- C8, counterexample.  In the fire-and-stream loop of
`test_script_execute` a line containing `AI_GOAL_COMPLETE` does not end
the session: the later line `XYZ` is still surfaced and the loop reports
no sentinel stop — only `SCRIPT_COMPLETE`/`SCRIPT_ERROR` terminate this
loop. -/
theorem c8_counterexample :
    runTSE [RecvEv.data "AI_GOAL_COMPLETE\nXYZ".data]
      = (["AI_GOAL_COMPLETE".data, "XYZ".data], false, 1) := by
  decide

/-- C8, amended.  In `test_script_execute`, whenever a decoded chunk
splits into lines with a first sentinel line `l` (containing
`SCRIPT_COMPLETE` or `SCRIPT_ERROR`), the session ends immediately upon
surfacing `l`: the surfaced lines are exactly the nonempty earlier lines
followed by `l`, later lines and later events are never surfaced, and the
socket closes once — independent of the JSON completion heuristic.  The
`AI_GOAL_*` sentinels do not terminate this loop (they belong to
`test_run_ai_goal`), and `test_exclude_live`'s loop does not even stop on
`SCRIPT_COMPLETE`. -/
theorem c8_amended_sentinel_stop (pre post : List Str) (l s : Str)
    (evs : List RecvEv)
    (hsent : tseSentinel l = true)
    (hpre : ∀ x ∈ pre, tseSentinel x = false)
    (hsplit : splitLines s = pre ++ l :: post) :
    runTSE (RecvEv.data s :: evs)
      = (pre.filter (fun x => !x.isEmpty) ++ [l], true, 1)
    ∧ tseSentinel "AI_GOAL_COMPLETE".data = false
    ∧ tseSentinel "AI_GOAL_ERROR".data = false
    ∧ tgSentinel "AI_GOAL_COMPLETE".data = true
    ∧ telSentinel "SCRIPT_COMPLETE".data = false := by
  refine ⟨?_, by decide, by decide, by decide, by decide⟩
  have hp := tseProcess_sentinel pre post l hsent hpre
  simp [runTSE, hsplit, hp]

/-- C8, witness: the chunk `ok`, `SCRIPT_COMPLETE`, `rest` stops right at
the sentinel line, never surfacing `rest`. -/
theorem c8_amended_witness :
    runTSE (RecvEv.data "ok\nSCRIPT_COMPLETE\nrest".data :: [])
      = (["ok".data].filter (fun x => !x.isEmpty) ++ ["SCRIPT_COMPLETE".data],
          true, 1)
    ∧ tseSentinel "AI_GOAL_COMPLETE".data = false
    ∧ tseSentinel "AI_GOAL_ERROR".data = false
    ∧ tgSentinel "AI_GOAL_COMPLETE".data = true
    ∧ telSentinel "SCRIPT_COMPLETE".data = false :=
  c8_amended_sentinel_stop ["ok".data] ["rest".data] "SCRIPT_COMPLETE".data
    "ok\nSCRIPT_COMPLETE\nrest".data [] (by decide) (by decide) (by decide)

end ControlClient
